import Mathlib

/-!
Verification development for the multi-format intake system
(classifier + data extractor + ephemeral memory cache).

The Python sources are shallowly embedded: pure functions become Lean
functions over `String` / `List` / `ℚ`; file-system access becomes an
explicit map from paths to optional file data; the sqlite-backed cache
becomes explicit state passing over an association list.  Python's
`str.lower` is modelled ASCII-only via `Char.toLower` (all keyword tables and
concrete inputs are ASCII), and Python's `x in s` substring test is
modelled by an explicit scan.
-/

/-! ## String primitives (Python `in` substring test, on lowered text) -/

/-- `listStartsWith needle hay`: `needle` is a prefix of `hay`
(char by char, as Python string comparison does). -/
def listStartsWith : List Char → List Char → Bool
  | [], _ => true
  | _ :: _, [] => false
  | a :: as, b :: bs => a == b && listStartsWith as bs

/-- `listHasSub needle hay`: `needle` occurs as a contiguous substring of
`hay` (Python's `needle in hay`).  The empty needle occurs in every string. -/
def listHasSub (needle : List Char) : List Char → Bool
  | [] => listStartsWith needle []
  | c :: cs => listStartsWith needle (c :: cs) || listHasSub needle cs

/-- Python's `kw in content` on strings. -/
def pyIn (kw content : String) : Bool := listHasSub kw.data content.data

/-- Python's `str.lower()` (ASCII model; every keyword table and concrete
input in this development is ASCII apart from a lower-invariant em-dash). -/
def pyLower (s : String) : String := String.mk (s.data.map Char.toLower)

/-! ## `ClassifierAgent._classify_urgency` (src/classifier.py:90-102) -/

/-- The classifier's high-urgency keyword table (src/classifier.py:94). -/
def high_urgency_keywords : List String :=
  ["urgent", "asap", "immediate", "emergency", "critical"]

/-- The classifier's medium-urgency keyword table (src/classifier.py:95). -/
def medium_urgency_keywords : List String :=
  ["soon", "priority", "important", "timely"]

/-- `ClassifierAgent._classify_urgency`: keyword ladder over the lowered
content, high set first, then medium, else `Low`. -/
def classify_urgency (content : String) : String :=
  let cl := pyLower content
  if high_urgency_keywords.any (fun k => pyIn k cl) then "High"
  else if medium_urgency_keywords.any (fun k => pyIn k cl) then "Medium"
  else "Low"

/-! ## `DataExtractor._detect_urgency` (src/data_extractor.py:162-171) -/

/-- `DataExtractor._detect_urgency`: same ladder shape, but its high set
omits `critical` and its medium set omits `timely` (the in-line lists at
src/data_extractor.py:166 and 168). -/
def detect_urgency (content : String) : String :=
  let cl := pyLower content
  if (["urgent", "asap", "immediate", "emergency"] : List String).any
      (fun k => pyIn k cl) then "High"
  else if (["soon", "priority", "important"] : List String).any
      (fun k => pyIn k cl) then "Medium"
  else "Low"

/-- C2 counterexample: the claim says the extractor's urgency detector and
the classifier's urgency scorer agree on every text, with `critical` in the
High set.  On the text `"this is critical"` the classifier answers `High`
but the extractor answers `Low`, because `critical` is missing from the
extractor's high-urgency list (src/data_extractor.py:166). -/
theorem c2_counterexample :
    classify_urgency "this is critical" = "High" ∧
    detect_urgency "this is critical" = "Low" := by
  exact ⟨by decide, by decide⟩

/-- C2 (amended): the extractor's high set omits `critical` and its medium
set omits `timely`; on any text containing neither `critical` nor `timely`
(case-insensitive substring, i.e. after lowering) the two urgency functions
agree: High iff one of urgent/asap/immediate/emergency occurs, else Medium
iff one of soon/priority/important occurs, else Low. -/
theorem c2_amended (content : String)
    (hc : pyIn "critical" (pyLower content) = false)
    (ht : pyIn "timely" (pyLower content) = false) :
    detect_urgency content = classify_urgency content := by
  unfold detect_urgency classify_urgency high_urgency_keywords
    medium_urgency_keywords
  simp only [List.any_cons, List.any_nil, hc, ht, Bool.or_false]

/-- Witness for `c2_amended` at the concrete text `"do it soon"` (which
contains neither `critical` nor `timely`): both functions answer `Medium`. -/
theorem c2_amended_witness :
    detect_urgency "do it soon" = classify_urgency "do it soon" ∧
    classify_urgency "do it soon" = "Medium" :=
  ⟨c2_amended "do it soon" (by decide) (by decide), by decide⟩

/-! ## `ClassifierAgent._classify_intent` (src/classifier.py:74-88) -/

/-- The classifier's intent keyword tables, in declaration order
(src/classifier.py:16-23).  Python dicts preserve insertion order, so this
order is also the iteration order of `max`. -/
def intent_keywords : List (String × List String) :=
  [("Invoice", ["invoice", "bill", "payment", "amount due", "billing"]),
   ("RFQ", ["rfq", "quote", "quotation", "pricing", "request for quote"]),
   ("Complaint", ["complaint", "issue", "problem", "dissatisfied", "error"]),
   ("Regulation", ["regulation", "compliance", "policy", "guideline", "standard"]),
   ("Contract", ["contract", "agreement", "terms", "conditions"]),
   ("Report", ["report", "analysis", "summary", "findings"])]

/-- `sum(1 for keyword in keywords if keyword in content_lower)`: the number
of keywords of the table occurring in the (already lowered) content. -/
def keywordScore (kws : List String) (cl : String) : Nat :=
  (kws.filter fun k => pyIn k cl).length

/-- All six (category, score) pairs in declaration order, over the lowered
content. -/
def allIntentScores (content : String) : List (String × Nat) :=
  intent_keywords.map fun p => (p.1, keywordScore p.2 (pyLower content))

/-- The dict `intent_scores`: each intent is inserted (in declaration order)
only when its score is positive (src/classifier.py:80-83). -/
def intentScoresOf (content : String) : List (String × Nat) :=
  (allIntentScores content).filter fun p => 0 < p.2

/-- Python's `max(seq, key=snd)`: a left fold that replaces the current best
only on a strictly larger score, so the first maximal element wins. -/
def pyMaxByScore : List (String × Nat) → Option (String × Nat)
  | [] => none
  | x :: xs => some (xs.foldl (fun best y => if best.2 < y.2 then y else best) x)

/-- `ClassifierAgent._classify_intent`: the key of the maximal entry of
`intent_scores`, or `General` when that dict is empty. -/
def classify_intent (content : String) : String :=
  match pyMaxByScore (intentScoresOf content) with
  | some p => p.1
  | none => "General"

/-! Spec-side formulation of intent selection (from §4.1 step 3 of the
spec: strictly highest non-zero count wins, ties broken by declaration
order, all-zero means `General`). -/

/-- The largest score in a score list (0 for the empty list). -/
def maxScore (l : List (String × Nat)) : Nat := l.foldr (fun p m => max p.2 m) 0

/-- Modelled from the spec's words (§4.1 step 3): score every category,
and pick the first declared category attaining the maximal score provided
that maximum is non-zero; otherwise `General`. -/
def intentSpec (content : String) : String :=
  if maxScore (allIntentScores content) = 0 then "General"
  else
    match (allIntentScores content).find?
        (fun p => p.2 == maxScore (allIntentScores content)) with
    | some p => p.1
    | none => "General"

theorem snd_le_maxScore {l : List (String × Nat)} {p : String × Nat}
    (hp : p ∈ l) : p.2 ≤ maxScore l := by
  induction l with
  | nil => cases hp
  | cons a t ih =>
    rcases List.mem_cons.mp hp with h | h
    · subst h; exact Nat.le_max_left _ _
    · exact le_trans (ih h) (Nat.le_max_right _ _)

theorem maxScore_attained {l : List (String × Nat)} (h : 0 < maxScore l) :
    ∃ p ∈ l, p.2 = maxScore l := by
  induction l with
  | nil => simp [maxScore] at h
  | cons a t ih =>
    rcases Nat.le_total (maxScore t) a.2 with hle | hle
    · refine ⟨a, List.mem_cons_self _ _, ?_⟩
      simp only [maxScore, List.foldr_cons]
      exact (Nat.max_eq_left hle).symm
    · have hmax : maxScore (a :: t) = maxScore t := by
        simp only [maxScore, List.foldr_cons]
        exact Nat.max_eq_right hle
      rw [hmax] at h ⊢
      obtain ⟨p, hp, hps⟩ := ih h
      exact ⟨p, List.mem_cons_of_mem _ hp, hps⟩

/-- A fold with strict-improvement replacement keeps an accumulator that
already dominates the list. -/
theorem foldl_pyMax_of_dominant {l : List (String × Nat)} {x : String × Nat}
    (hx : ∀ y ∈ l, y.2 ≤ x.2) :
    l.foldl (fun best y => if best.2 < y.2 then y else best) x = x := by
  induction l with
  | nil => rfl
  | cons a t ih =>
    have ha : a.2 ≤ x.2 := hx a (List.mem_cons_self _ _)
    simp only [List.foldl_cons, if_neg (Nat.not_lt.mpr ha)]
    exact ih fun y hy => hx y (List.mem_cons_of_mem _ hy)

/-- When some list element strictly beats the accumulator, the fold returns
the first element attaining the list's maximal score. -/
theorem foldl_pyMax_of_beaten {l : List (String × Nat)} :
    ∀ {x : String × Nat}, x.2 < maxScore l →
    ∃ p, (l.find? fun q => q.2 == maxScore l) = some p ∧
      l.foldl (fun best y => if best.2 < y.2 then y else best) x = p := by
  induction l with
  | nil => intro x hx; simp [maxScore] at hx
  | cons a t ih =>
    intro x hx
    have hms : maxScore (a :: t) = max a.2 (maxScore t) := by
      simp [maxScore]
    by_cases hax : x.2 < a.2
    · simp only [List.foldl_cons, if_pos hax]
      rcases Nat.le_total (maxScore t) a.2 with hle | hle
      · have hm : maxScore (a :: t) = a.2 := by rw [hms]; exact Nat.max_eq_left hle
        refine ⟨a, ?_, ?_⟩
        · rw [List.find?_cons, hm]
          simp
        · exact foldl_pyMax_of_dominant fun y hy => le_trans (snd_le_maxScore hy) hle
      · by_cases hat : a.2 < maxScore t
        · have hm : maxScore (a :: t) = maxScore t := by
            rw [hms]; exact Nat.max_eq_right hle
          obtain ⟨p, hfind, hfold⟩ := ih hat
          refine ⟨p, ?_, hfold⟩
          rw [List.find?_cons, hm]
          have : (a.2 == maxScore t) = false := by
            simp [Nat.ne_of_lt hat]
          simp [this, hfind]
        · have haeq : a.2 = maxScore t := Nat.le_antisymm hle (Nat.not_lt.mp hat)
          have hm : maxScore (a :: t) = a.2 := by
            rw [hms, haeq, Nat.max_self]
          refine ⟨a, ?_, ?_⟩
          · rw [List.find?_cons, hm]
            simp
          · exact foldl_pyMax_of_dominant fun y hy =>
              le_trans (snd_le_maxScore hy) (le_of_eq haeq.symm)
    · have hax' : a.2 ≤ x.2 := Nat.not_lt.mp hax
      simp only [List.foldl_cons, if_neg hax]
      have hxt : x.2 < maxScore t := by
        rw [hms] at hx
        rcases lt_max_iff.mp hx with h | h
        · exact absurd h hax
        · exact h
      have hm : maxScore (a :: t) = maxScore t := by
        rw [hms]
        exact Nat.max_eq_right (le_trans hax' (Nat.le_of_lt hxt))
      obtain ⟨p, hfind, hfold⟩ := ih hxt
      refine ⟨p, ?_, hfold⟩
      rw [List.find?_cons, hm]
      have : (a.2 == maxScore t) = false := by
        simp [Nat.ne_of_lt (Nat.lt_of_le_of_lt hax' hxt)]
      simp [this, hfind]

/-- Python's `max` over a non-empty score list is its first maximal entry. -/
theorem pyMaxByScore_eq_find? {l : List (String × Nat)} (hl : l ≠ []) :
    pyMaxByScore l = l.find? fun p => p.2 == maxScore l := by
  cases l with
  | nil => exact absurd rfl hl
  | cons x xs =>
    have hms : maxScore (x :: xs) = max x.2 (maxScore xs) := by simp [maxScore]
    by_cases hbeat : x.2 < maxScore xs
    · obtain ⟨p, hfind, hfold⟩ := foldl_pyMax_of_beaten (l := xs) (x := x) hbeat
      have hm : maxScore (x :: xs) = maxScore xs := by
        rw [hms]; exact Nat.max_eq_right (Nat.le_of_lt hbeat)
      rw [List.find?_cons, hm]
      have : (x.2 == maxScore xs) = false := by simp [Nat.ne_of_lt hbeat]
      simp only [this, cond_false]
      rw [hfind]
      simpa [pyMaxByScore] using hfold
    · have hle : maxScore xs ≤ x.2 := Nat.not_lt.mp hbeat
      have hm : maxScore (x :: xs) = x.2 := by rw [hms]; exact Nat.max_eq_left hle
      rw [List.find?_cons, hm]
      simp only [beq_self_eq_true, cond_true]
      simp only [pyMaxByScore, Option.some.injEq]
      exact foldl_pyMax_of_dominant fun y hy => le_trans (snd_le_maxScore hy) hle

/-- Dropping the zero-score entries does not change the maximal score. -/
theorem maxScore_filter_pos (l : List (String × Nat)) :
    maxScore (l.filter fun p => 0 < p.2) = maxScore l := by
  induction l with
  | nil => rfl
  | cons a t ih =>
    by_cases ha : 0 < a.2
    · rw [List.filter_cons_of_pos (by simpa using ha)]
      simp only [maxScore, List.foldr_cons] at ih ⊢
      rw [ih]
    · rw [List.filter_cons_of_neg (by simpa using ha)]
      have ha0 : a.2 = 0 := by omega
      simp only [maxScore, List.foldr_cons] at ih ⊢
      rw [ih, ha0, Nat.zero_max]

theorem find?_filter_comm {α : Type} (q pr : α → Bool) (l : List α) :
    (l.filter q).find? pr = l.find? fun a => q a && pr a := by
  induction l with
  | nil => rfl
  | cons a t ih =>
    by_cases hq : q a = true
    · rw [List.filter_cons_of_pos hq]
      cases hpr : pr a
      · simp [List.find?_cons, hq, hpr, ih]
      · simp [List.find?_cons, hq, hpr]
    · have hq' : q a = false := Bool.eq_false_iff.mpr hq
      rw [List.filter_cons_of_neg (by simp [hq'])]
      simp [List.find?_cons, hq', ih]

theorem find?_congr_mem {α : Type} {p q : α → Bool} {l : List α}
    (h : ∀ a ∈ l, p a = q a) : l.find? p = l.find? q := by
  induction l with
  | nil => rfl
  | cons a t ih =>
    rw [List.find?_cons, List.find?_cons, h a (List.mem_cons_self _ _)]
    cases q a
    · exact ih fun b hb => h b (List.mem_cons_of_mem _ hb)
    · rfl

/-- C3: the classifier's intent selection agrees with the spec's rule —
count, for each category, how many of its keywords occur in the lowered
text; the strictly highest non-zero count wins; ties fall to the earliest
declared category (Invoice, RFQ, Complaint, Regulation, Contract, Report);
and all-zero counts give `General`. -/
theorem c3_intent_argmax (content : String) :
    classify_intent content = intentSpec content := by
  unfold classify_intent intentSpec intentScoresOf
  set all := allIntentScores content with hall
  by_cases hm : maxScore all = 0
  · have hfilter : (all.filter fun p => 0 < p.2) = [] := by
      rw [List.filter_eq_nil_iff]
      intro p hp
      have := snd_le_maxScore hp
      simp only [decide_eq_true_eq]
      omega
    rw [hfilter, hm]
    simp [pyMaxByScore]
  · have hmpos : 0 < maxScore all := Nat.pos_of_ne_zero hm
    obtain ⟨p₀, hp₀, hp₀s⟩ := maxScore_attained hmpos
    have hp₀pos : 0 < p₀.2 := hp₀s ▸ hmpos
    have hmem : p₀ ∈ all.filter fun p => 0 < p.2 :=
      List.mem_filter.mpr ⟨hp₀, by simpa using hp₀pos⟩
    have hne : (all.filter fun p => 0 < p.2) ≠ [] := by
      intro h; rw [h] at hmem; cases hmem
    rw [pyMaxByScore_eq_find? hne, maxScore_filter_pos, find?_filter_comm]
    have hpred : ∀ a ∈ all, ((decide (0 < a.2)) && (a.2 == maxScore all)) =
        (a.2 == maxScore all) := by
      intro a _
      by_cases he : a.2 = maxScore all
      · simp [he, hmpos]
      · simp [he]
    rw [find?_congr_mem hpred, if_neg hm]

/-- Every intent the classifier can return is either `General` or the name
of one of the six declared categories. -/
theorem classify_intent_cases (content : String) :
    classify_intent content = "General" ∨
    ∃ q ∈ intent_keywords, classify_intent content = q.1 := by
  rw [c3_intent_argmax]
  unfold intentSpec
  set all := allIntentScores content with hall
  by_cases hm : maxScore all = 0
  · rw [if_pos hm]; exact Or.inl rfl
  · rw [if_neg hm]
    cases hfind : all.find? fun p => p.2 == maxScore all with
    | none => exact Or.inl rfl
    | some p =>
      right
      have hp : p ∈ all := List.mem_of_find?_eq_some hfind
      rw [hall] at hp
      unfold allIntentScores at hp
      obtain ⟨q, hq, hqp⟩ := List.mem_map.mp hp
      exact ⟨q, hq, by rw [← hqp]⟩

/-! ## `ClassifierAgent._calculate_confidence` (src/classifier.py:104-118) -/

/-- First-match association lookup, Python's `dict.get(key, default)` for a
dict modelled as an ordered association list. -/
def assocFind {α : Type} (k : String) : List (String × α) → Option α
  | [] => none
  | p :: ps => if p.1 = k then some p.2 else assocFind k ps

/-- `round(x, 2)`: rounding to two decimal places over `ℚ`.  Every value
this program feeds to it is already an exact multiple of 1/100 (scores are
m/5 + 3/10 or m/4 + 3/10 capped at 1), so the tie-breaking convention of
Python's float rounding never matters. -/
def roundTo2 (q : ℚ) : ℚ := (round (q * 100) : ℚ) / 100

/-- `ClassifierAgent._calculate_confidence`: 0.3 for `General`; otherwise
`round(min(matches / len(keywords) + 0.3, 1.0), 2)` over the intent's
keyword table, with a dead 0.5 fallback when the table misses the intent. -/
def calc_confidence (content intent : String) : ℚ :=
  if intent = "General" then 3/10
  else
    let keywords := (assocFind intent intent_keywords).getD []
    if keywords.isEmpty then 1/2
    else roundTo2 (min ((keywordScore keywords (pyLower content) : ℚ) /
      (keywords.length : ℚ) + 3/10) 1)

/-- Looking any declared category's name up in its own table finds that
table, and no declared table is empty or named `General`. -/
theorem intent_keywords_lookup :
    ∀ q ∈ intent_keywords, assocFind q.1 intent_keywords = some q.2 ∧
      q.2 ≠ [] ∧ q.1 ≠ "General" := by decide

/-- C4: with the intent that `classify` itself computes for the content —
(a) intent `General` gives confidence exactly 0.30, and (b) any other
intent has a (non-empty) declared keyword table `kws` and the confidence is
`min(matchedKeywordCount / totalKeywordCount + 0.30, 1.0)` rounded to two
decimal places, where `matchedKeywordCount` counts the winning intent's
keywords occurring in the lowered text.  The 0.5 fallback for an unknown
intent is unreachable. -/
theorem c4_confidence (content : String) :
    (classify_intent content = "General" →
      calc_confidence content (classify_intent content) = 3/10) ∧
    (classify_intent content ≠ "General" →
      ∃ kws, assocFind (classify_intent content) intent_keywords = some kws ∧
        kws ≠ [] ∧
        calc_confidence content (classify_intent content) =
          roundTo2 (min ((keywordScore kws (pyLower content) : ℚ) /
            (kws.length : ℚ) + 3/10) 1)) := by
  constructor
  · intro hg
    rw [calc_confidence, if_pos hg]
  · intro hg
    rcases classify_intent_cases content with h | ⟨q, hq, hqe⟩
    · exact absurd h hg
    · obtain ⟨hlook, hne, _⟩ := intent_keywords_lookup q hq
      refine ⟨q.2, by rw [hqe]; exact hlook, hne, ?_⟩
      rw [calc_confidence, if_neg hg, hqe, hlook]
      simp only [Option.getD_some]
      rw [if_neg (by simpa [List.isEmpty_iff] using hne)]

/-- Witness for `c4_confidence` at the concrete text `"invoice"`: the
intent is `Invoice` (not `General`), its table has five keywords of which
one matches, and the confidence is `round(min(1/5 + 0.3, 1.0), 2) = 0.5`. -/
theorem c4_confidence_witness :
    classify_intent "invoice" ≠ "General" ∧
    (∃ kws, assocFind (classify_intent "invoice") intent_keywords = some kws ∧
      kws ≠ [] ∧
      calc_confidence "invoice" (classify_intent "invoice") =
        roundTo2 (min ((keywordScore kws (pyLower "invoice") : ℚ) /
          (kws.length : ℚ) + 3/10) 1)) ∧
    calc_confidence "invoice" (classify_intent "invoice") = 1/2 :=
  ⟨by decide, (c4_confidence "invoice").2 (by decide), by
    have hi : classify_intent "invoice" = "Invoice" := by decide
    have h1 : keywordScore ["invoice", "bill", "payment", "amount due", "billing"]
        (pyLower "invoice") = 1 := by decide
    have hlook : assocFind "Invoice" intent_keywords =
        some ["invoice", "bill", "payment", "amount due", "billing"] := by decide
    rw [hi]
    unfold calc_confidence
    rw [if_neg (show ¬("Invoice" : String) = "General" by decide), hlook]
    norm_num [h1, roundTo2, round_eq]⟩

/-! ## `ClassifierAgent.classify` (src/classifier.py:25-72)

The OS surface is made explicit: a file system is a map from paths to
`Option FileData`.  `content` is the text produced by reading with
`errors='ignore'` (so reading an existing file never raises); `jsonParse`
is the outcome of `json.load` + `json.dumps(data, indent=2)` on that file
(`Except.error` carries the exception text of a decode failure); `size` is
`os.path.getsize`.  A missing path makes `open` and `os.path.getsize`
raise, which is the `none` case. -/

structure FileData where
  content : String
  jsonParse : Except String String
  size : Nat

/-- `str(FileNotFoundError)` for a missing path (CPython's message). -/
def osErrorMsg (path : String) : String :=
  "[Errno 2] No such file or directory: '" ++ path ++ "'"

/-- `os.path.splitext(path)[1].lower()`: the extension starts at the last
dot of the basename, except that leading dots of the basename never start
an extension. -/
def splitextStart : List Char → Option (List Char)
  | [] => none
  | c :: cs =>
    match splitextStart cs with
    | some e => some e
    | none => if c = '.' then some (c :: cs) else none

/-- The basename of a posix path: the segment after the last `/`
(accumulator holds the current segment, reversed). -/
def baseNameAux (acc : List Char) : List Char → List Char
  | [] => acc.reverse
  | c :: cs => if c = '/' then baseNameAux [] cs else baseNameAux (c :: acc) cs

def extOf (path : String) : String :=
  let base := baseNameAux [] path.data
  match splitextStart (base.dropWhile fun c => c = '.') with
  | some e => String.mk (e.map Char.toLower)
  | none => ""

/-- `ClassifierAgent.format_mappings` (src/classifier.py:9-14). -/
def format_mappings : List (String × String) :=
  [(".pdf", "PDF"), (".json", "JSON"), (".txt", "Email"), (".eml", "Email")]

/-- `ClassifierAgent._read_file_content` (src/classifier.py:58-72): it
catches its own failures and returns them as an `"Error reading file: ..."`
STRING, which then flows into intent scoring. -/
def read_file_content (fs : String → Option FileData) (path : String) : String :=
  match fs path with
  | none => "Error reading file: " ++ osErrorMsg path
  | some fd =>
    if extOf path = ".json" then
      match fd.jsonParse with
      | Except.ok dump => dump
      | Except.error msg => "Error reading file: " ++ msg
    else fd.content

/-- `ClassifierAgent._generate_processing_notes` (src/classifier.py:120-138). -/
def generate_processing_notes (format_type intent : String) : String :=
  let n1 : List String :=
    if format_type = "PDF" then ["PDF document detected - text extraction required"]
    else if format_type = "JSON" then ["JSON data detected - structure validation recommended"]
    else if format_type = "Email" then ["Email content detected - sender and metadata extraction needed"]
    else []
  let n2 : List String :=
    if intent = "Invoice" then ["Invoice processing - extract amounts and dates"]
    else if intent = "RFQ" then ["RFQ processing - identify requirements and pricing requests"]
    else if intent = "Complaint" then ["Complaint processing - prioritize for customer service"]
    else []
  String.intercalate "; " (n1 ++ n2)

/-- The classifier's result record.  The degraded branch fills only
`format`/`intent`/`urgency`/`error`, so the other fields are optional. -/
structure ClassificationRecord where
  format : String
  intent : String
  urgency : String
  confidence_score : Option ℚ
  file_size : Option Nat
  processing_notes : Option String
  error : Option String

/-- `ClassifierAgent.classify` (src/classifier.py:25-56).  Inside the
`try`, only `os.path.getsize` can raise (content reading catches its own
failures), and it raises exactly when the path is missing; the dict fields
before `file_size` are then discarded, so the missing-path case maps
straight to the degraded record. -/
def classify (fs : String → Option FileData) (path inputType : String) :
    ClassificationRecord :=
  match fs path with
  | none =>
    { format := "Unknown", intent := "Unknown", urgency := "Low",
      confidence_score := none, file_size := none, processing_notes := none,
      error := some ("Classification error: " ++ osErrorMsg path) }
  | some fd =>
    let fmt := (assocFind (extOf path) format_mappings).getD "Unknown"
    let content := read_file_content fs path
    let intent := classify_intent content
    { format := fmt, intent := intent, urgency := classify_urgency content,
      confidence_score := some (calc_confidence content intent),
      file_size := some fd.size,
      processing_notes := some (generate_processing_notes fmt intent),
      error := none }

/-- The decode-failure message of `json.load` on the malformed document
consisting of a single opening brace (CPython's `json.JSONDecodeError`
text raised by `JSONObject` when no property name follows).  Note it
contains the substring `quote` — an RFQ keyword. -/
def badJsonMsg : String :=
  "Expecting property name enclosed in double quotes: line 1 column 2 (char 1)"

/-- What `_read_file_content` hands to intent scoring for that file. -/
def badContent : String := "Error reading file: " ++ badJsonMsg

/-- A file system holding one readable file `bad.json` whose content is
malformed JSON: reading succeeds, `json.load` raises. -/
def fsBadJson : String → Option FileData := fun p =>
  if p = "bad.json" then some ⟨"\x7b", Except.error badJsonMsg, 1⟩ else none

/-- C1 counterexample: the claim says any decode error (e.g. malformed
JSON) yields the degraded record `format=Unknown, intent=Unknown,
urgency=Low` with an error note.  For the readable file `bad.json` with
malformed JSON, `classify` instead returns a normally-scored record: the
reader's error string becomes the classified content, giving
`format="JSON"` and `intent="RFQ"` — the decode message's word `quotes`
contains the RFQ keyword `quote`, tying at score 1 with Complaint's
keyword `error`, and RFQ is declared first so Python's `max` picks it —
with confidence 0.5 and NO error note. -/
theorem c1_counterexample :
    classify fsBadJson "bad.json" "json" =
      { format := "JSON", intent := "RFQ", urgency := "Low",
        confidence_score := some (1/2), file_size := some 1,
        processing_notes := some ("JSON data detected - structure validation recommended; RFQ processing - identify requirements and pricing requests"),
        error := none } ∧
    (classify fsBadJson "bad.json" "json").format ≠ "Unknown" ∧
    (classify fsBadJson "bad.json" "json").intent ≠ "Unknown" ∧
    (classify fsBadJson "bad.json" "json").error = none := by
  have hread : read_file_content fsBadJson "bad.json" = badContent := by decide
  have hint : classify_intent badContent = "RFQ" := by decide
  have hurg : classify_urgency badContent = "Low" := by decide
  have hfmt : (assocFind (extOf "bad.json") format_mappings).getD "Unknown" = "JSON" := by
    decide
  have hnotes : generate_processing_notes "JSON" "RFQ" =
      "JSON data detected - structure validation recommended; RFQ processing - identify requirements and pricing requests" := by
    decide
  have hks : keywordScore ["rfq", "quote", "quotation", "pricing", "request for quote"]
      (pyLower badContent) = 1 := by decide
  have hlook : assocFind "RFQ" intent_keywords =
      some ["rfq", "quote", "quotation", "pricing", "request for quote"] := by decide
  have hconf : calc_confidence badContent "RFQ" = 1/2 := by
    unfold calc_confidence
    rw [if_neg (show ¬("RFQ" : String) = "General" by decide), hlook]
    norm_num [hks, roundTo2, round_eq]
  have hfs : fsBadJson "bad.json" = some ⟨"\x7b", Except.error badJsonMsg, 1⟩ := rfl
  have hcl : classify fsBadJson "bad.json" "json" =
      { format := "JSON", intent := "RFQ", urgency := "Low",
        confidence_score := some (1/2), file_size := some 1,
        processing_notes := some ("JSON data detected - structure validation recommended; RFQ processing - identify requirements and pricing requests"),
        error := none } := by
    unfold classify
    rw [hfs]
    simp only [hread, hint, hurg, hfmt, hconf, hnotes]
  refine ⟨hcl, ?_, ?_, ?_⟩ <;> rw [hcl] <;> decide

/-- C1 (amended): `classify` is a total function — for every file-system
state, path and declared kind it returns a record — and it returns the
degraded record (`format=Unknown, intent=Unknown, urgency=Low`, an error
note, no other fields) exactly when the file cannot be accessed at all; a
decode failure on a readable file instead produces a normally-scored
record, with the reader's error text folded into the classified content
and no error note. -/
theorem c1_amended (fs : String → Option FileData) (path inputType : String) :
    ((classify fs path inputType).error.isSome ↔ fs path = none) ∧
    (fs path = none →
      classify fs path inputType =
        { format := "Unknown", intent := "Unknown", urgency := "Low",
          confidence_score := none, file_size := none, processing_notes := none,
          error := some ("Classification error: " ++ osErrorMsg path) }) := by
  cases hfs : fs path with
  | none =>
    refine ⟨?_, fun _ => ?_⟩ <;> unfold classify <;> rw [hfs] <;> simp
  | some fd =>
    refine ⟨?_, fun h => ?_⟩
    · unfold classify
      rw [hfs]
      simp
    · exact Option.noConfusion h

/-- Witness for `c1_amended`: on the empty file system, classifying the
path `missing.txt` yields exactly the degraded record. -/
theorem c1_amended_witness :
    classify (fun _ => none) "missing.txt" "file" =
      { format := "Unknown", intent := "Unknown", urgency := "Low",
        confidence_score := none, file_size := none, processing_notes := none,
        error := some ("Classification error: " ++ osErrorMsg "missing.txt") } :=
  (c1_amended (fun _ => none) "missing.txt" "file").2 rfl

/-! ## JSON values and `DataExtractor._calculate_data_quality`
(src/data_extractor.py:283-303)

A parsed JSON document is a tree of nulls, booleans, numbers, strings,
arrays and objects; `_calculate_data_quality` receives the top-level
object as a dict, modelled as the ordered association list of its fields. -/

inductive Json where
  | null
  | bool (b : Bool)
  | num (q : ℚ)
  | str (s : String)
  | arr (elems : List Json)
  | obj (fields : List (String × Json))

/-- `v is None` for a JSON value. -/
def Json.isNull : Json → Bool
  | .null => true
  | _ => false

/-- `v == ""` for a JSON value (only the empty string compares equal). -/
def Json.isEmptyStr : Json → Bool
  | .str "" => true
  | _ => false

/-- `v is not None and v != ""` (src/data_extractor.py:292). -/
def nonEmptyVal (v : Json) : Bool := !v.isNull && !v.isEmptyStr

/-- `required_fields = ["id", "timestamp", "type"]`
(src/data_extractor.py:274,296). -/
def required_fields : List String := ["id", "timestamp", "type"]

/-- `DataExtractor._calculate_data_quality`: 0 for an empty dict, else the
completeness, required-field and base terms accumulated in source order and
capped at 1.0. -/
def calculate_data_quality (data : List (String × Json)) : ℚ :=
  if data.length = 0 then 0
  else
    let non_empty := (data.filter fun p => nonEmptyVal p.2).length
    let present := (required_fields.filter fun f => data.any fun p => p.1 == f).length
    min ((non_empty : ℚ) / (data.length : ℚ) * (1/2) +
      (present : ℚ) / (required_fields.length : ℚ) * (3/10) + 1/5) 1

/-- Modelled from the spec's words (§4.2, JSON reader): 0.5 × fraction of
non-null/non-empty top-level fields + 0.3 × fraction of the three required
fields present + 0.2 baseline, capped at 1.0, with the zero-field record
pinned to 0.0. -/
def dataQualitySpec (data : List (String × Json)) : ℚ :=
  if data.length = 0 then 0
  else
    min ((1/2) * (((data.filter fun p => nonEmptyVal p.2).length : ℚ) / (data.length : ℚ)) +
      (3/10) * (((required_fields.filter fun f => data.any fun p => p.1 == f).length : ℚ) / 3) +
      1/5) 1

/-- C5: the implemented data-quality score coincides with the spec formula
on every top-level object; in particular `{}` scores exactly 0 and
`{"id":"x","timestamp":"t","type":"y"}` scores exactly 1. -/
theorem c5_data_quality :
    (∀ data : List (String × Json), calculate_data_quality data = dataQualitySpec data) ∧
    calculate_data_quality [] = 0 ∧
    calculate_data_quality
      [("id", Json.str "x"), ("timestamp", Json.str "t"), ("type", Json.str "y")] = 1 := by
  refine ⟨fun data => ?_, rfl, ?_⟩
  · unfold calculate_data_quality dataQualitySpec
    by_cases h : data.length = 0
    · rw [if_pos h, if_pos h]
    · rw [if_neg h, if_neg h]
      congr 1
      have : ((required_fields.length : ℚ)) = 3 := by norm_num [required_fields]
      rw [this]
      ring
  · have h3 : ([("id", Json.str "x"), ("timestamp", Json.str "t"),
        ("type", Json.str "y")] : List (String × Json)).length = 3 := rfl
    unfold calculate_data_quality
    rw [if_neg (by rw [h3]; omega)]
    have hne : (([("id", Json.str "x"), ("timestamp", Json.str "t"),
        ("type", Json.str "y")] : List (String × Json)).filter
        fun p => nonEmptyVal p.2).length = 3 := rfl
    have hpres : ((required_fields.filter fun f =>
        ([("id", Json.str "x"), ("timestamp", Json.str "t"),
          ("type", Json.str "y")] : List (String × Json)).any
          fun p => p.1 == f).length) = 3 := rfl
    rw [hne, hpres, h3]
    norm_num [required_fields]

/-! ## `MemoryManager` (src/memory_manager.py)

The sqlite table `memory_store (key PRIMARY KEY, data TEXT, created_at,
expires_at)` is modelled as an association list over ℚ-valued timestamps
(hours).  The `data` column holds `json.dumps(payload)`; since
`json.loads (json.dumps x) = x` for string-keyed JSON values, the column is
represented by the parsed `Json` value itself.  `datetime.now()` becomes an
explicit `now` argument; `timedelta(hours=h)` is the rational `h`. -/

/-- A row of `memory_store`. -/
structure Entry where
  data : Json
  created_at : ℚ
  expires_at : Option ℚ

/-- The `memory_store` table state. -/
abbrev MemStore := List (String × Entry)

/-- A Python object handed to `store`: either a JSON-serializable value or
something `json.dumps` rejects (raising `TypeError`). -/
inductive PyObj where
  | jsonVal (j : Json)
  | notSerializable (descr : String)

/-- `json.dumps`, abstracted to its parsed result: serializable values
round-trip, non-serializable ones raise (`none`). -/
def pyJsonDumps : PyObj → Option Json
  | .jsonVal j => some j
  | .notSerializable _ => none

/-- `MemoryManager.store` (src/memory_manager.py:41-60).  `json.dumps` runs
while the parameter tuple is built, BEFORE the INSERT executes, so a
serialization failure is caught with no write issued and `False` returned.
On success `INSERT OR REPLACE` overwrites any row at the key (the fresh row
takes `created_at = CURRENT_TIMESTAMP` by column default) and `True` is
returned. -/
def MemoryManager.store (st : MemStore) (key : String) (data : PyObj)
    (now : ℚ) (expires_hours : ℚ) : MemStore × Bool :=
  match pyJsonDumps data with
  | none => (st, false)
  | some j =>
    ((key, ⟨j, now, some (now + expires_hours)⟩) ::
      List.filter (fun p => p.1 != key) st, true)

/-- The SQL liveness test `expires_at IS NULL OR expires_at > now`. -/
def isLive (e : Entry) (now : ℚ) : Bool :=
  match e.expires_at with
  | none => true
  | some x => decide (now < x)

/-- The SQL expiry test `expires_at IS NOT NULL AND expires_at <= now`. -/
def isExpiredEntry (e : Entry) (now : ℚ) : Bool :=
  match e.expires_at with
  | none => false
  | some x => decide (x ≤ now)

/-- `MemoryManager.get` (src/memory_manager.py:62-82): the row at the key,
provided it is live at read time, parsed back from its JSON text. -/
def MemoryManager.get (st : MemStore) (key : String) (now : ℚ) : Option Json :=
  match assocFind key st with
  | none => none
  | some e => if isLive e now then some e.data else none

/-- `MemoryManager.cleanup_expired` (src/memory_manager.py:130-149):
`DELETE ... WHERE expires_at IS NOT NULL AND expires_at <= now`, returning
the new table and sqlite's `rowcount` of deleted rows. -/
def MemoryManager.cleanup_expired (st : MemStore) (now : ℚ) : MemStore × Nat :=
  (List.filter (fun p => !isExpiredEntry p.2 now) st,
   (List.filter (fun p => isExpiredEntry p.2 now) st).length)

/-- A row of the `get_all_memory` listing. -/
structure MemRow where
  key : String
  data : Json
  created_at : ℚ
  expires_at : Option ℚ

/-- Insertion into a list already sorted by `created_at` descending
(`ORDER BY created_at DESC`). -/
def insertDesc (p : String × Entry) : List (String × Entry) → List (String × Entry)
  | [] => [p]
  | q :: qs =>
    if decide (q.2.created_at ≤ p.2.created_at) then p :: q :: qs
    else q :: insertDesc p qs

def sortDesc : List (String × Entry) → List (String × Entry)
  | [] => []
  | p :: ps => insertDesc p (sortDesc ps)

/-- `MemoryManager.get_all_memory` (src/memory_manager.py:100-128): all
live rows, newest-created first. -/
def MemoryManager.get_all_memory (st : MemStore) (now : ℚ) : List MemRow :=
  (sortDesc (List.filter (fun p => isLive p.2 now) st)).map
    fun p => ⟨p.1, p.2.data, p.2.created_at, p.2.expires_at⟩

theorem mem_insertDesc {p x : String × Entry} {l : List (String × Entry)} :
    x ∈ insertDesc p l ↔ x = p ∨ x ∈ l := by
  induction l with
  | nil => simp [insertDesc]
  | cons q qs ih =>
    unfold insertDesc
    by_cases h : decide (q.2.created_at ≤ p.2.created_at) = true
    · rw [if_pos h]
      simp [List.mem_cons]
    · rw [if_neg h]
      simp only [List.mem_cons, ih]
      tauto

theorem mem_sortDesc {x : String × Entry} {l : List (String × Entry)} :
    x ∈ sortDesc l ↔ x ∈ l := by
  induction l with
  | nil => simp [sortDesc]
  | cons p ps ih =>
    unfold sortDesc
    rw [mem_insertDesc]
    simp [List.mem_cons, ih]

/-- Distinct rows of a table with unique keys (the PRIMARY KEY constraint)
cannot share a key. -/
theorem key_injective {l : List (String × Entry)}
    (hnd : (l.map Prod.fst).Nodup) {p q : String × Entry}
    (hp : p ∈ l) (hq : q ∈ l) (hk : p.1 = q.1) : p = q := by
  induction l with
  | nil => cases hp
  | cons a t ih =>
    rw [List.map_cons, List.nodup_cons] at hnd
    rcases List.mem_cons.mp hp with hp1 | hp1 <;>
      rcases List.mem_cons.mp hq with hq1 | hq1
    · rw [hp1, hq1]
    · exfalso
      apply hnd.1
      have ha : a.1 = q.1 := by rw [← hp1]; exact hk
      rw [ha]
      exact List.mem_map_of_mem Prod.fst hq1
    · exfalso
      apply hnd.1
      have ha : a.1 = p.1 := by rw [← hq1]; exact hk.symm
      rw [ha]
      exact List.mem_map_of_mem Prod.fst hp1
    · exact ih hnd.2 hp1 hq1

/-- C6: storing a serializable payload under a key with `ttlHours = 24`
and reading that key back strictly before the TTL elapses returns the
identical payload; reading at or after expiry returns absent. -/
theorem c6_roundtrip (st : MemStore) (key : String) (j : Json)
    (t0 t1 t2 : ℚ) (h1 : t1 < t0 + 24) (h2 : t0 + 24 ≤ t2) :
    MemoryManager.get (MemoryManager.store st key (PyObj.jsonVal j) t0 24).1 key t1 =
      some j ∧
    MemoryManager.get (MemoryManager.store st key (PyObj.jsonVal j) t0 24).1 key t2 =
      none := by
  have hstore : (MemoryManager.store st key (PyObj.jsonVal j) t0 24).1 =
      (key, ⟨j, t0, some (t0 + 24)⟩) :: List.filter (fun p => p.1 != key) st := rfl
  have hfind : assocFind key (MemoryManager.store st key (PyObj.jsonVal j) t0 24).1 =
      some ⟨j, t0, some (t0 + 24)⟩ := by
    rw [hstore]
    unfold assocFind
    rw [if_pos rfl]
  constructor
  · unfold MemoryManager.get
    rw [hfind]
    simp only [isLive]
    rw [if_pos (decide_eq_true h1)]
  · unfold MemoryManager.get
    rw [hfind]
    simp only [isLive]
    rw [if_neg]
    simp only [decide_eq_true_eq, not_lt]
    exact h2

/-- Witness for `c6_roundtrip`: store `"v"` at time 0 with a 24-hour TTL;
a read at time 1 returns it, a read at time 25 returns absent. -/
theorem c6_roundtrip_witness :
    MemoryManager.get
      (MemoryManager.store [] "k" (PyObj.jsonVal (Json.str "v")) 0 24).1 "k" 1 =
      some (Json.str "v") ∧
    MemoryManager.get
      (MemoryManager.store [] "k" (PyObj.jsonVal (Json.str "v")) 0 24).1 "k" 25 =
      none :=
  c6_roundtrip [] "k" (Json.str "v") 0 1 25 (by norm_num) (by norm_num)

/-- C7: `cleanup_expired` keeps exactly the rows that are not expired at
sweep time (in particular every never-expiring row), returns the count of
removed rows, and no removed row's key appears in any later
`get_all_memory` listing of the swept table (keys are unique by the
PRIMARY KEY constraint). -/
theorem c7_sweep (st : MemStore) (now : ℚ) :
    (∀ p, p ∈ (MemoryManager.cleanup_expired st now).1 ↔
      p ∈ st ∧ isExpiredEntry p.2 now = false) ∧
    (MemoryManager.cleanup_expired st now).2 =
      (List.filter (fun p => isExpiredEntry p.2 now) st).length ∧
    (∀ p ∈ st, p.2.expires_at = none →
      p ∈ (MemoryManager.cleanup_expired st now).1) ∧
    (∀ (t : ℚ) (q : String × Entry), (st.map Prod.fst).Nodup → q ∈ st →
      isExpiredEntry q.2 now = true →
      ∀ r ∈ MemoryManager.get_all_memory (MemoryManager.cleanup_expired st now).1 t,
        r.key ≠ q.1) := by
  have hmem : ∀ p, p ∈ (MemoryManager.cleanup_expired st now).1 ↔
      p ∈ st ∧ isExpiredEntry p.2 now = false := by
    intro p
    unfold MemoryManager.cleanup_expired
    simp [List.mem_filter]
  refine ⟨hmem, rfl, ?_, ?_⟩
  · intro p hp hnone
    exact (hmem p).mpr ⟨hp, by simp [isExpiredEntry, hnone]⟩
  · intro t q hnd hq hexp r hr hkey
    unfold MemoryManager.get_all_memory at hr
    obtain ⟨p, hpmem, hpr⟩ := List.mem_map.mp hr
    have hp1 : p ∈ List.filter (fun p => isLive p.2 t)
        (MemoryManager.cleanup_expired st now).1 := mem_sortDesc.mp hpmem
    have hp2 : p ∈ (MemoryManager.cleanup_expired st now).1 :=
      (List.mem_filter.mp hp1).1
    obtain ⟨hpst, hpexp⟩ := (hmem p).mp hp2
    have hpk : p.1 = q.1 := by rw [← hpr] at hkey; exact hkey
    have : p = q := key_injective hnd hpst hq hpk
    rw [this, hexp] at hpexp
    exact Bool.noConfusion hpexp

/-- Concrete two-row table for the sweep witness: `"a"` expires at hour 5,
`"b"` never expires. -/
def sweepDemoStore : MemStore :=
  [("a", ⟨Json.str "old", 0, some 5⟩), ("b", ⟨Json.str "keep", 1, none⟩)]

/-- Witness for `c7_sweep`: sweeping at hour 10 removes exactly the row
`"a"` (count 1), and the listing at hour 11 contains no row keyed `"a"`. -/
theorem c7_sweep_witness :
    (MemoryManager.cleanup_expired sweepDemoStore 10).2 = 1 ∧
    (∀ r ∈ MemoryManager.get_all_memory
        (MemoryManager.cleanup_expired sweepDemoStore 10).1 11,
      r.key ≠ "a") := by
  constructor
  · rw [(c7_sweep sweepDemoStore 10).2.1]
    norm_num [sweepDemoStore, isExpiredEntry, List.filter_cons]
  · exact (c7_sweep sweepDemoStore 10).2.2.2 11 ("a", ⟨Json.str "old", 0, some 5⟩)
      (by decide) (by simp [sweepDemoStore]) (by norm_num [isExpiredEntry])

/-- C9: the public `store` always attaches the finite expiry
`now + ttlHours` — the row it writes carries `expires_at = some (now+ttl)`,
and every row of a post-store table either predates the call or carries
that finite expiry, so `store` can never create a never-expiring row —
even though the read paths (`isLive`) and the sweep (`isExpiredEntry`)
both treat a row with NULL `expires_at` as live forever. -/
theorem c9_store_ttl :
    (∀ (st : MemStore) (key : String) (j : Json) (now ttl : ℚ),
      assocFind key (MemoryManager.store st key (PyObj.jsonVal j) now ttl).1 =
        some ⟨j, now, some (now + ttl)⟩) ∧
    (∀ (st : MemStore) (key : String) (d : PyObj) (now ttl : ℚ)
      (p : String × Entry), p ∈ (MemoryManager.store st key d now ttl).1 →
        p ∈ st ∨ p.2.expires_at = some (now + ttl)) ∧
    (∀ (e : Entry) (now : ℚ), e.expires_at = none →
      isLive e now = true ∧ isExpiredEntry e now = false) := by
  refine ⟨?_, ?_, ?_⟩
  · intro st key j now ttl
    have hstore : (MemoryManager.store st key (PyObj.jsonVal j) now ttl).1 =
        (key, ⟨j, now, some (now + ttl)⟩) :: List.filter (fun p => p.1 != key) st := rfl
    rw [hstore]
    unfold assocFind
    rw [if_pos rfl]
  · intro st key d now ttl p hp
    cases d with
    | notSerializable descr => exact Or.inl hp
    | jsonVal j =>
      have hstore : (MemoryManager.store st key (PyObj.jsonVal j) now ttl).1 =
          (key, ⟨j, now, some (now + ttl)⟩) :: List.filter (fun p => p.1 != key) st := rfl
      rw [hstore] at hp
      rcases List.mem_cons.mp hp with h | h
      · right; rw [h]
      · exact Or.inl (List.mem_filter.mp h).1
  · intro e now hnone
    exact ⟨by simp [isLive, hnone], by simp [isExpiredEntry, hnone]⟩

/-- Witness for `c9_store_ttl`: a concrete store at time 0 with TTL 24
writes expiry 24, and a concrete NULL-expiry row is live and unexpired. -/
theorem c9_store_ttl_witness :
    assocFind "k" (MemoryManager.store [] "k" (PyObj.jsonVal Json.null) 0 24).1 =
      some ⟨Json.null, 0, some 24⟩ ∧
    isLive ⟨Json.null, 0, none⟩ 5 = true ∧
    isExpiredEntry ⟨Json.null, 0, none⟩ 5 = false := by
  refine ⟨?_, (c9_store_ttl.2.2 ⟨Json.null, 0, none⟩ 5 rfl).1,
    (c9_store_ttl.2.2 ⟨Json.null, 0, none⟩ 5 rfl).2⟩
  have h := c9_store_ttl.1 [] "k" Json.null 0 24
  simpa using h

/-- C10: `store` with a payload `json.dumps` rejects returns `False` and
leaves the table exactly as it was — serialization happens while the SQL
parameters are built, before any write is issued. -/
theorem c10_store_unchanged (st : MemStore) (key descr : String) (now ttl : ℚ) :
    MemoryManager.store st key (PyObj.notSerializable descr) now ttl = (st, false) :=
  rfl

/-! ## Field extraction regexes (src/data_extractor.py:173-195)

`re.findall` is modelled as an explicit left-to-right scan: at each
position the pattern is tried (alternatives in order, greedy quantifiers
with backtracking); on success the scan resumes after the match, otherwise
one character further.  Fuel bounds the scan by the text length, which
suffices because every match consumes at least one character. -/

/-- Python's `\w` (ASCII model): letters, digits, underscore. -/
def isWordChar (c : Char) : Bool := c.isAlphanum || c == '_'

/-- `\b` between the previous character (`none` at the start of the text)
and the next one: exactly one side is a word character. -/
def isBoundary (prev : Option Char) (c : Char) : Bool :=
  (match prev with
   | none => false
   | some p => isWordChar p) != isWordChar c

/-- `(?:,\d{3})*`: greedily consume repeated groups of a comma followed by
exactly three digits. -/
def takeCommaGroups : List Char → List Char × List Char
  | ',' :: a :: b :: c :: rest =>
    if a.isDigit && b.isDigit && c.isDigit then
      let (m, r) := takeCommaGroups rest
      (',' :: a :: b :: c :: m, r)
    else ([], ',' :: a :: b :: c :: rest)
  | l => ([], l)

/-- `(?:\.\d{2})?`: optionally a dot followed by exactly two digits. -/
def takeCents : List Char → List Char × List Char
  | '.' :: a :: b :: rest =>
    if a.isDigit && b.isDigit then (['.', a, b], rest)
    else ([], '.' :: a :: b :: rest)
  | l => ([], l)

/-- One attempt of the amount pattern `\$\d+(?:,\d{3})*(?:\.\d{2})?` at the
head of the text: the matched characters and the remaining text. -/
def matchAmount : List Char → Option (List Char × List Char)
  | '$' :: rest =>
    let ds := rest.takeWhile Char.isDigit
    if ds.isEmpty then none
    else
      let r1 := rest.dropWhile Char.isDigit
      let (g, r2) := takeCommaGroups r1
      let (c, r3) := takeCents r2
      some ('$' :: (ds ++ g ++ c), r3)
  | _ => none

def scanAmounts : Nat → List Char → List String
  | 0, _ => []
  | _ + 1, [] => []
  | fuel + 1, c :: cs =>
    match matchAmount (c :: cs) with
    | some (m, r) => String.mk m :: scanAmounts fuel r
    | none => scanAmounts fuel cs

/-- `re.findall(r'\$\d+(?:,\d{3})*(?:\.\d{2})?', content)`
(src/data_extractor.py:190-191). -/
def findAmounts (s : String) : List String := scanAmounts s.data.length s.data

/-- Consume exactly `n` digits. -/
def digitsExactly : Nat → List Char → Option (List Char)
  | 0, cs => some cs
  | n + 1, c :: cs => if c.isDigit then digitsExactly n cs else none
  | _ + 1, [] => none

/-- Trailing `\b` after a digit: the next character must not be a word
character (or the text ends). -/
def digitEndBoundary : List Char → Option (List Char)
  | [] => some []
  | d :: rest => if isWordChar d then none else some (d :: rest)

/-- First phone alternative `\b\d{3}-\d{3}-\d{4}\b`. -/
def matchPhoneAlt1 (prev : Option Char) (cs : List Char) : Option (List Char) :=
  match cs with
  | c :: _ =>
    if isBoundary prev c then
      (digitsExactly 3 cs).bind fun r1 =>
      match r1 with
      | '-' :: r2 =>
        (digitsExactly 3 r2).bind fun r3 =>
        match r3 with
        | '-' :: r4 => (digitsExactly 4 r4).bind digitEndBoundary
        | _ => none
      | _ => none
    else none
  | [] => none

/-- Second phone alternative `\b\(\d{3}\)\s?\d{3}-\d{4}\b` (note: the
leading `\b` sits between a word character and the non-word `(`, so this
alternative only fires after a word character). -/
def matchPhoneAlt2 (prev : Option Char) (cs : List Char) : Option (List Char) :=
  match cs with
  | '(' :: r1 =>
    if isBoundary prev '(' then
      (digitsExactly 3 r1).bind fun r2 =>
      match r2 with
      | ')' :: r3 =>
        let r3' := match r3 with
          | c :: rest => if c.isWhitespace then rest else c :: rest
          | [] => []
        (digitsExactly 3 r3').bind fun r4 =>
        match r4 with
        | '-' :: r5 => (digitsExactly 4 r5).bind digitEndBoundary
        | _ => none
      | _ => none
    else none
  | _ => none

def scanPhones : Nat → Option Char → List Char → List String
  | 0, _, _ => []
  | _ + 1, _, [] => []
  | fuel + 1, prev, c :: cs =>
    match (matchPhoneAlt1 prev (c :: cs)).orElse
        (fun _ => matchPhoneAlt2 prev (c :: cs)) with
    | some r =>
      let m := (c :: cs).take ((c :: cs).length - r.length)
      String.mk m :: scanPhones fuel (some (m.getLastD c)) r
    | none => scanPhones fuel (some c) cs

/-- `re.findall(r'\b\d{3}-\d{3}-\d{4}\b|\b\(\d{3}\)\s?\d{3}-\d{4}\b', content)`
(src/data_extractor.py:178-179). -/
def findPhones (s : String) : List String := scanPhones s.data.length none s.data

/-- `[A-Za-z0-9._%+-]` (the local-part class). -/
def localClass (c : Char) : Bool :=
  c.isAlphanum || c == '.' || c == '_' || c == '%' || c == '+' || c == '-'

/-- `[A-Za-z0-9.-]` (the domain class). -/
def domainClass (c : Char) : Bool := c.isAlphanum || c == '.' || c == '-'

/-- `[A-Z|a-z]` — the literal `|` is part of the character class. -/
def tldClass (c : Char) : Bool := c.isAlpha || c == '|'

/-- `[A-Z|a-z]{2,}\b`, greedy with backtracking on the trailing boundary.
`need` is how many more class characters are still required; `last` is the
previously consumed character (initially the dot). -/
def tldGo (need : Nat) (last : Char) : List Char → Option (List Char)
  | [] => if need == 0 && isWordChar last then some [] else none
  | c :: cs =>
    if tldClass c then
      match tldGo (need - 1) c cs with
      | some r => some r
      | none =>
        if need == 0 && (isWordChar last != isWordChar c) then some (c :: cs)
        else none
    else
      if need == 0 && (isWordChar last != isWordChar c) then some (c :: cs)
      else none

/-- After the domain run: `\.[A-Z|a-z]{2,}\b`. -/
def emailDomainCont : List Char → Option (List Char)
  | '.' :: r => tldGo 2 '.' r
  | _ => none

/-- `[A-Za-z0-9.-]*` before `emailDomainCont`, greedy with backtracking. -/
def emailDomainStar : List Char → Option (List Char)
  | [] => emailDomainCont []
  | c :: cs =>
    if domainClass c then
      match emailDomainStar cs with
      | some r => some r
      | none => emailDomainCont (c :: cs)
    else emailDomainCont (c :: cs)

/-- `[A-Za-z0-9.-]+\.[A-Z|a-z]{2,}\b` (one required domain character, then
the greedy star). -/
def emailDomainPlus : List Char → Option (List Char)
  | c :: cs => if domainClass c then emailDomainStar cs else none
  | [] => none

/-- After the local-part run: `@` then the domain. -/
def emailLocalCont : List Char → Option (List Char)
  | '@' :: r => emailDomainPlus r
  | _ => none

/-- `[A-Za-z0-9._%+-]*` before `emailLocalCont`, greedy with backtracking. -/
def emailLocalStar : List Char → Option (List Char)
  | [] => emailLocalCont []
  | c :: cs =>
    if localClass c then
      match emailLocalStar cs with
      | some r => some r
      | none => emailLocalCont (c :: cs)
    else emailLocalCont (c :: cs)

/-- The full address pattern
`\b[A-Za-z0-9._%+-]+@[A-Za-z0-9.-]+\.[A-Z|a-z]{2,}\b` at the current
position. -/
def matchEmailAddr (prev : Option Char) : List Char → Option (List Char)
  | c :: cs =>
    if localClass c && isBoundary prev c then emailLocalStar cs else none
  | [] => none

def scanEmailAddrs : Nat → Option Char → List Char → List String
  | 0, _, _ => []
  | _ + 1, _, [] => []
  | fuel + 1, prev, c :: cs =>
    match matchEmailAddr prev (c :: cs) with
    | some r =>
      let m := (c :: cs).take ((c :: cs).length - r.length)
      String.mk m :: scanEmailAddrs fuel (some (m.getLastD c)) r
    | none => scanEmailAddrs fuel (some c) cs

/-- `re.findall` for the e-mail address pattern
(src/data_extractor.py:143-144 and 184-185). -/
def findEmailAddrs (s : String) : List String :=
  scanEmailAddrs s.data.length none s.data

/-! ## `DataExtractor` email extraction (src/data_extractor.py:32-64,
141-195) -/

/-- The `extracted_fields` dict: each category is present only when at
least one match was found. -/
structure ExtractedFields where
  phone_numbers : Option (List String)
  email_addresses : Option (List String)
  amounts : Option (List String)
deriving DecidableEq

/-- `DataExtractor._extract_email_fields` (src/data_extractor.py:173-195). -/
def extract_email_fields (content : String) : ExtractedFields :=
  let phones := findPhones content
  let emails := findEmailAddrs content
  let amounts := findAmounts content
  ⟨if phones.isEmpty then none else some phones,
   if emails.isEmpty then none else some emails,
   if amounts.isEmpty then none else some amounts⟩

/-- `DataExtractor._extract_sender_from_text` (src/data_extractor.py:141-145):
first e-mail address in the raw content, else `"Unknown"`. -/
def extract_sender_from_text (content : String) : String :=
  (findEmailAddrs content).headD "Unknown"

/-- `DataExtractor._classify_email_intent` (src/data_extractor.py:147-160):
a fixed-priority 4-category ladder, distinct from the classifier's
6-category scoring. -/
def classify_email_intent (content : String) : String :=
  let cl := pyLower content
  if (["rfq", "quote", "quotation", "pricing"] : List String).any
      (fun w => pyIn w cl) then "RFQ"
  else if (["complaint", "issue", "problem", "dissatisfied"] : List String).any
      (fun w => pyIn w cl) then "Complaint"
  else if (["invoice", "bill", "payment", "amount due"] : List String).any
      (fun w => pyIn w cl) then "Invoice"
  else if (["regulation", "compliance", "policy"] : List String).any
      (fun w => pyIn w cl) then "Regulation"
  else "General"

/-- What `email.parser.Parser(policy=default).parsestr` produced:
the header fields, `str(msg.get_payload())`, the decoded payload of a
non-multipart message, and the decoded text/plain parts of a multipart
one (in walk order). -/
structure PyEmailMsg where
  headers : List (String × String)
  payloadStr : String
  decodedPayload : String
  isMultipart : Bool
  textPlainParts : List String

/-- `msg.get(name, default)`: header lookup is case-insensitive, first
occurrence wins. -/
def msgGet (msg : PyEmailMsg) (name dflt : String) : String :=
  ((msg.headers.find? fun h => pyLower h.1 == pyLower name).map Prod.snd).getD dflt

/-- `DataExtractor._extract_email_body` (src/data_extractor.py:129-139):
first text/plain part of a multipart message (`none` when the loop falls
through without one), else the decoded payload. -/
def extract_email_body (msg : PyEmailMsg) : Option String :=
  if msg.isMultipart then msg.textPlainParts.head?
  else some msg.decodedPayload

/-- The inner `try` of `extract_from_email`: either the parse produced a
message, or it failed and the plain-text fallback runs. -/
inductive EmailParse where
  | parsed (msg : PyEmailMsg)
  | failed

/-- The record built by `extract_from_email`; `content` is only filled by
the fallback branch, the header-derived fields only by the parsed branch.
(`recipient` models the record's `to` key.) -/
structure EmailRecord where
  type : String
  sender : String
  subject : Option String
  date : Option String
  recipient : Option String
  body : Option String
  content : Option String
  intent : String
  urgency : String
  extracted_fields : ExtractedFields

/-- `DataExtractor.extract_from_email` (src/data_extractor.py:32-64), with
the file's text (read with `errors='ignore'`) and the stdlib parser's
outcome made explicit. -/
def extract_from_email (content : String) (outcome : EmailParse) : EmailRecord :=
  match outcome with
  | .parsed msg =>
    { type := "email",
      sender := msgGet msg "From" "Unknown",
      subject := some (msgGet msg "Subject" "No Subject"),
      date := some (msgGet msg "Date" "Unknown"),
      recipient := some (msgGet msg "To" "Unknown"),
      body := extract_email_body msg,
      content := none,
      intent := classify_email_intent (msgGet msg "Subject" "" ++ " " ++ msg.payloadStr),
      urgency := detect_urgency content,
      extracted_fields := extract_email_fields content }
  | .failed =>
    { type := "email_text",
      sender := extract_sender_from_text content,
      subject := none, date := none, recipient := none, body := none,
      content := some content,
      intent := classify_email_intent content,
      urgency := detect_urgency content,
      extracted_fields := extract_email_fields content }

/-- The content of the scenario file `invoice.txt`. -/
def invoiceTxtContent : String := "Invoice — amount due $450.00, please pay ASAP"

/-- What the lenient stdlib parser yields for that text: it has no header
lines (no colon before the first blank line is ever found — the first line
is already body material), so the message is headerless, non-multipart,
and its payload is the entire text. -/
def invoiceTxtMsg : PyEmailMsg :=
  ⟨[], invoiceTxtContent, invoiceTxtContent, false, []⟩

/-- C8: extracting the email-reader record for `invoice.txt` containing
`"Invoice — amount due $450.00, please pay ASAP"` gives
`intent = Invoice`, `urgency = High` and `extractedFields.amounts =
["$450.00"]` — on both the parsed branch (the one actually taken, since
the lenient parser never fails here) and the plain-text fallback branch. -/
theorem c8_invoice_scenario :
    ((extract_from_email invoiceTxtContent (.parsed invoiceTxtMsg)).intent = "Invoice" ∧
     (extract_from_email invoiceTxtContent (.parsed invoiceTxtMsg)).urgency = "High" ∧
     (extract_from_email invoiceTxtContent (.parsed invoiceTxtMsg)).extracted_fields.amounts =
       some ["$450.00"]) ∧
    ((extract_from_email invoiceTxtContent .failed).intent = "Invoice" ∧
     (extract_from_email invoiceTxtContent .failed).urgency = "High" ∧
     (extract_from_email invoiceTxtContent .failed).extracted_fields.amounts =
       some ["$450.00"]) := by
  refine ⟨⟨?_, ?_, ?_⟩, ⟨?_, ?_, ?_⟩⟩ <;> decide
